import Mathlib

/-!
Shallow embedding of the scheduled fan-out and rate-limited multi-source
aggregation engine of the tg-bot-demo repository.

The embedding models, from the TypeScript source:
  * `PriceComparisonService` (exchange price aggregation): `getAllPrices`,
    `comparePrices`, and its per-source rate limiter `checkRateLimit` /
    `incrementRequestCount`;
  * `SchedulerService.executeTask` with its concurrency ceiling, failure
    counting and auto-pause via `pauseTask` / `resumeTask`;
  * `TelegramBotService.broadcastToSubscribers`;
  * `SchedulerService.checkPriceAlerts` together with
    `DatabaseService.getActiveAlerts` / `triggerAlert`;
  * `DatabaseService.cleanOldRecords`.

JavaScript numbers are modelled as rationals (`ℚ`), epoch-millisecond
timestamps as integers (`ℤ`), and fallible calls as `Except`/`Option`
values supplied as explicit parameters.
-/

/-- The `SupportedExchange` enum of `src/types/crypto.ts`. -/
inductive SupportedExchange where
  | binance
  | okx
  | bybit
  | coinbase
  | kraken
deriving DecidableEq, Repr

/-- The `ExchangePrice` record of `src/types/crypto.ts`: one quote fetched
from one exchange. `volume_24h` is optional in the schema. -/
structure ExchangePrice where
  exchange : SupportedExchange
  symbol : String
  price : ℚ
  volume_24h : Option ℚ
  timestamp : ℤ
deriving DecidableEq, Repr

/-- The `FundingRate` record of `src/types/crypto.ts`. -/
structure FundingRate where
  exchange : SupportedExchange
  symbol : String
  funding_rate : ℚ
  next_funding_time : Option ℤ
  timestamp : ℤ
deriving DecidableEq, Repr

/-- The `PriceComparison` record of `src/types/crypto.ts`, as built by
`PriceComparisonService.comparePrices`. -/
structure PriceComparison where
  symbol : String
  prices : List ExchangePrice
  best_price : ExchangePrice
  worst_price : ExchangePrice
  price_difference : ℚ
  price_difference_percentage : ℚ
  funding_rates : Option (List FundingRate)
  timestamp : ℤ
deriving DecidableEq, Repr

/-- One insertion step of a stable ascending sort keyed on `price`.  This
models `Array.prototype.sort((a, b) => a.price - b.price)` used in
`comparePrices`: ECMAScript's sort is stable, which is exactly the
behaviour of insertion before the first strictly larger element. -/
def insertByPrice (x : ExchangePrice) : List ExchangePrice → List ExchangePrice
  | [] => [x]
  | y :: ys => if x.price ≤ y.price then x :: y :: ys else y :: insertByPrice x ys

/-- Stable ascending sort on `price`; the model of
`[...prices].sort((a, b) => a.price - b.price)` in `comparePrices`. -/
def sortByPrice : List ExchangePrice → List ExchangePrice
  | [] => []
  | x :: xs => insertByPrice x (sortByPrice xs)

/-- `PriceComparisonService.getAllPrices`: the three per-exchange fetches
(`getBinancePrice`, `getOKXPrice`, `getBybitPrice`) each resolve with a
quote or with `null` on failure (they catch their own errors); the results
of `Promise.allSettled` are collected in the fixed order Binance, OKX,
Bybit, keeping only the successful non-null quotes. -/
def getAllPrices (binance okx bybit : Option ExchangePrice) : List ExchangePrice :=
  binance.toList ++ okx.toList ++ bybit.toList

/-- Body of `PriceComparisonService.comparePrices` after the fetches have
settled: `null` when no quote succeeded, otherwise sort ascending by price,
take the first element as `best_price` and the last as `worst_price`, and
compute the absolute and percentage spread.  The `headD`/`getLastD`
defaults are never used since the sorted list is nonempty. -/
def comparePricesAux (symbol : String) (fundingRates : List FundingRate) (now : ℤ) :
    List ExchangePrice → Option PriceComparison
  | [] => none
  | p :: ps =>
    let sorted := sortByPrice (p :: ps)
    let bestPrice := sorted.headD p
    let worstPrice := sorted.getLastD p
    let priceDifference := worstPrice.price - bestPrice.price
    let priceDifferencePercentage := priceDifference / bestPrice.price * 100
    some { symbol := symbol
           prices := p :: ps
           best_price := bestPrice
           worst_price := worstPrice
           price_difference := priceDifference
           price_difference_percentage := priceDifferencePercentage
           funding_rates := if fundingRates.isEmpty then none else some fundingRates
           timestamp := now }

/-- `PriceComparisonService.comparePrices(symbol, includeFundingRates)`:
fetch all prices (given here as the three settled fetch results) and the
funding rates, then aggregate.  Nothing in the body can reject once the
per-source fetches have resolved, so the result is a plain `Option`. -/
def comparePrices (symbol : String) (binance okx bybit : Option ExchangePrice)
    (fundingRates : List FundingRate) (now : ℤ) : Option PriceComparison :=
  comparePricesAux symbol fundingRates now (getAllPrices binance okx bybit)

/-- First quote attaining the minimum price in `x :: xs`: on a price tie the
earlier quote wins.  This is the spec's tie-break rule for `best_price`
(first-encountered in source iteration order). -/
def specFirstMinBy : ExchangePrice → List ExchangePrice → ExchangePrice
  | x, [] => x
  | x, y :: ys =>
    let m := specFirstMinBy y ys
    if x.price ≤ m.price then x else m

/-- First quote attaining the maximum price in `x :: xs`: on a price tie the
earlier quote wins.  This is the spec's claimed tie-break rule for
`worst_price` (first-encountered in source iteration order). -/
def specFirstMaxBy : ExchangePrice → List ExchangePrice → ExchangePrice
  | x, [] => x
  | x, y :: ys =>
    let m := specFirstMaxBy y ys
    if m.price ≤ x.price then x else m

/-- Last quote attaining the maximum price in `x :: xs`: on a price tie the
later quote wins.  This is what a stable ascending sort actually leaves in
the last position. -/
def specLastMaxBy : ExchangePrice → List ExchangePrice → ExchangePrice
  | x, [] => x
  | x, y :: ys =>
    let m := specLastMaxBy y ys
    if m.price < x.price then x else m

theorem insertByPrice_ne_nil (x : ExchangePrice) (l : List ExchangePrice) :
    insertByPrice x l ≠ [] := by
  cases l with
  | nil => simp [insertByPrice]
  | cons y ys =>
    rw [insertByPrice]
    split <;> simp

theorem mem_insertByPrice {a x : ExchangePrice} {l : List ExchangePrice} :
    a ∈ insertByPrice x l ↔ a = x ∨ a ∈ l := by
  induction l with
  | nil => simp [insertByPrice]
  | cons y ys ih =>
    rw [insertByPrice]
    split
    · simp
    · simp only [List.mem_cons, ih]
      tauto

theorem mem_sortByPrice {a : ExchangePrice} {l : List ExchangePrice} :
    a ∈ sortByPrice l ↔ a ∈ l := by
  induction l with
  | nil => simp [sortByPrice]
  | cons y ys ih =>
    rw [sortByPrice, mem_insertByPrice]
    simp [ih]

theorem head?_insertByPrice_cons (x y : ExchangePrice) (ys : List ExchangePrice) :
    (insertByPrice x (y :: ys)).head? = some (if x.price ≤ y.price then x else y) := by
  rw [insertByPrice]
  split <;> simp

theorem head?_sortByPrice_cons (xs : List ExchangePrice) :
    ∀ x, (sortByPrice (x :: xs)).head? = some (specFirstMinBy x xs) := by
  induction xs with
  | nil => intro x; rfl
  | cons y ys ih =>
    intro x
    rw [sortByPrice]
    cases hs : sortByPrice (y :: ys) with
    | nil => exact absurd hs (by rw [sortByPrice]; exact insertByPrice_ne_nil _ _)
    | cons m rest =>
      have h := ih y
      rw [hs] at h
      simp only [List.head?_cons, Option.some.injEq] at h
      rw [head?_insertByPrice_cons, specFirstMinBy, h]

theorem price_le_specLastMaxBy (xs : List ExchangePrice) :
    ∀ x, ∀ z ∈ x :: xs, z.price ≤ (specLastMaxBy x xs).price := by
  induction xs with
  | nil =>
    intro x z hz
    simp only [List.mem_singleton] at hz
    subst hz
    exact le_refl _
  | cons y ys ih =>
    intro x z hz
    rw [specLastMaxBy]
    rcases List.mem_cons.mp hz with hzx | hzmem
    · subst hzx
      split
      · exact le_refl _
      · next hnot => exact le_of_not_lt hnot
    · have hz' := ih y z hzmem
      split
      · next hlt => exact le_trans hz' (le_of_lt hlt)
      · exact hz'

theorem getLast?_insertByPrice (x : ExchangePrice) (l : List ExchangePrice) :
    (insertByPrice x l).getLast? =
      if l.all (fun y => decide (y.price < x.price)) then some x else l.getLast? := by
  induction l with
  | nil => simp [insertByPrice]
  | cons y ys ih =>
    rw [insertByPrice]
    by_cases hxy : x.price ≤ y.price
    · rw [if_pos hxy, List.getLast?_cons_cons]
      have hfalse : (y :: ys).all (fun z => decide (z.price < x.price)) = false := by
        simp only [List.all_cons, Bool.and_eq_false_iff]
        left
        simpa using not_lt_of_le hxy
      rw [hfalse]
      simp
    · rw [if_neg hxy]
      have hyx : y.price < x.price := lt_of_not_le hxy
      cases hi : insertByPrice x ys with
      | nil => exact absurd hi (insertByPrice_ne_nil _ _)
      | cons c cs =>
        rw [List.getLast?_cons_cons, ← hi, ih]
        have hall : (y :: ys).all (fun z => decide (z.price < x.price)) =
            ys.all (fun z => decide (z.price < x.price)) := by
          simp [List.all_cons, hyx]
        rw [hall]
        by_cases hys : ys.all (fun z => decide (z.price < x.price))
        · rw [if_pos hys, if_pos hys]
        · rw [if_neg hys, if_neg hys]
          cases ys with
          | nil => simp at hys
          | cons c' cs' => rw [List.getLast?_cons_cons]

theorem getLast?_sortByPrice_cons (xs : List ExchangePrice) :
    ∀ x, (sortByPrice (x :: xs)).getLast? = some (specLastMaxBy x xs) := by
  induction xs with
  | nil => intro x; rfl
  | cons y ys ih =>
    intro x
    rw [sortByPrice, getLast?_insertByPrice]
    have hm := ih y
    have hmem : specLastMaxBy y ys ∈ sortByPrice (y :: ys) :=
      List.mem_of_mem_getLast? hm
    rw [specLastMaxBy]
    by_cases hlt : (specLastMaxBy y ys).price < x.price
    · have hall : (sortByPrice (y :: ys)).all (fun z => decide (z.price < x.price)) = true := by
        rw [List.all_eq_true]
        intro z hz
        have hz' : z ∈ y :: ys := mem_sortByPrice.mp hz
        have : z.price ≤ (specLastMaxBy y ys).price := price_le_specLastMaxBy ys y z hz'
        simpa using lt_of_le_of_lt this hlt
      rw [hall, if_pos rfl, if_pos hlt]
    · have hall : (sortByPrice (y :: ys)).all (fun z => decide (z.price < x.price)) = false := by
        rw [List.all_eq_false]
        exact ⟨specLastMaxBy y ys, hmem, by simpa using hlt⟩
      rw [hall]
      simp only [Bool.false_eq_true, if_false, if_neg hlt]
      exact hm

/-- C2: `comparePrices` over the 3 sources with one failed fetch and the two
surviving quotes priced 100 and 105 returns a comparison (not `null`) whose
best price is the 100-quote, worst price the 105-quote, absolute spread 5,
percentage spread 5, and whose quote list holds exactly the 2 successful
quotes — for every choice of which source failed and which of the two
survivors carries which price. -/
theorem comparePrices_one_failure_two_quotes :
    (comparePrices "BTCUSDT" none (some ⟨.okx, "BTCUSDT", 100, none, 0⟩)
        (some ⟨.bybit, "BTCUSDT", 105, none, 0⟩) [] 0 =
      some ⟨"BTCUSDT", [⟨.okx, "BTCUSDT", 100, none, 0⟩, ⟨.bybit, "BTCUSDT", 105, none, 0⟩],
        ⟨.okx, "BTCUSDT", 100, none, 0⟩, ⟨.bybit, "BTCUSDT", 105, none, 0⟩, 5, 5, none, 0⟩) ∧
    (comparePrices "BTCUSDT" none (some ⟨.okx, "BTCUSDT", 105, none, 0⟩)
        (some ⟨.bybit, "BTCUSDT", 100, none, 0⟩) [] 0 =
      some ⟨"BTCUSDT", [⟨.okx, "BTCUSDT", 105, none, 0⟩, ⟨.bybit, "BTCUSDT", 100, none, 0⟩],
        ⟨.bybit, "BTCUSDT", 100, none, 0⟩, ⟨.okx, "BTCUSDT", 105, none, 0⟩, 5, 5, none, 0⟩) ∧
    (comparePrices "BTCUSDT" (some ⟨.binance, "BTCUSDT", 100, none, 0⟩) none
        (some ⟨.bybit, "BTCUSDT", 105, none, 0⟩) [] 0 =
      some ⟨"BTCUSDT", [⟨.binance, "BTCUSDT", 100, none, 0⟩, ⟨.bybit, "BTCUSDT", 105, none, 0⟩],
        ⟨.binance, "BTCUSDT", 100, none, 0⟩, ⟨.bybit, "BTCUSDT", 105, none, 0⟩, 5, 5, none, 0⟩) ∧
    (comparePrices "BTCUSDT" (some ⟨.binance, "BTCUSDT", 105, none, 0⟩) none
        (some ⟨.bybit, "BTCUSDT", 100, none, 0⟩) [] 0 =
      some ⟨"BTCUSDT", [⟨.binance, "BTCUSDT", 105, none, 0⟩, ⟨.bybit, "BTCUSDT", 100, none, 0⟩],
        ⟨.bybit, "BTCUSDT", 100, none, 0⟩, ⟨.binance, "BTCUSDT", 105, none, 0⟩, 5, 5, none, 0⟩) ∧
    (comparePrices "BTCUSDT" (some ⟨.binance, "BTCUSDT", 100, none, 0⟩)
        (some ⟨.okx, "BTCUSDT", 105, none, 0⟩) none [] 0 =
      some ⟨"BTCUSDT", [⟨.binance, "BTCUSDT", 100, none, 0⟩, ⟨.okx, "BTCUSDT", 105, none, 0⟩],
        ⟨.binance, "BTCUSDT", 100, none, 0⟩, ⟨.okx, "BTCUSDT", 105, none, 0⟩, 5, 5, none, 0⟩) ∧
    (comparePrices "BTCUSDT" (some ⟨.binance, "BTCUSDT", 105, none, 0⟩)
        (some ⟨.okx, "BTCUSDT", 100, none, 0⟩) none [] 0 =
      some ⟨"BTCUSDT", [⟨.binance, "BTCUSDT", 105, none, 0⟩, ⟨.okx, "BTCUSDT", 100, none, 0⟩],
        ⟨.okx, "BTCUSDT", 100, none, 0⟩, ⟨.binance, "BTCUSDT", 105, none, 0⟩, 5, 5, none, 0⟩) := by
  refine ⟨?_, ?_, ?_, ?_, ?_, ?_⟩ <;>
    norm_num [comparePrices, comparePricesAux, getAllPrices, sortByPrice, insertByPrice]

/-- C7: when every source fetch fails (all three settle with no quote),
`comparePrices` returns `null` normally instead of throwing. -/
theorem comparePrices_all_sources_failed_returns_none
    (symbol : String) (fundingRates : List FundingRate) (now : ℤ) :
    comparePrices symbol none none none fundingRates now = none := rfl

/-- C3 counterexample: with Binance and OKX both quoting the shared maximum
price 105 (Bybit at 100), `comparePrices` selects the OKX quote as
`worst_price`, not the Binance quote, although Binance is the first source
in the fixed iteration order that attains the maximum — refuting the claim
that the first-encountered source wins the tie for `worst_price`. -/
theorem comparePrices_worst_tie_not_first_encountered :
    (comparePrices "BTCUSDT" (some ⟨.binance, "BTCUSDT", 105, none, 0⟩)
        (some ⟨.okx, "BTCUSDT", 105, none, 0⟩)
        (some ⟨.bybit, "BTCUSDT", 100, none, 0⟩) [] 0).map (fun c => c.worst_price) =
      some ⟨.okx, "BTCUSDT", 105, none, 0⟩ ∧
    specFirstMaxBy ⟨.binance, "BTCUSDT", 105, none, 0⟩
        [⟨.okx, "BTCUSDT", 105, none, 0⟩, ⟨.bybit, "BTCUSDT", 100, none, 0⟩] =
      ⟨.binance, "BTCUSDT", 105, none, 0⟩ ∧
    (⟨.okx, "BTCUSDT", 105, none, 0⟩ : ExchangePrice) ≠ ⟨.binance, "BTCUSDT", 105, none, 0⟩ := by
  refine ⟨?_, by decide, by decide⟩
  norm_num [comparePrices, comparePricesAux, getAllPrices, sortByPrice, insertByPrice]

/-- C3 amended: whenever at least one quote succeeds, `comparePrices`
deterministically selects as `best_price` the first quote attaining the
minimum price in source iteration order (Binance, OKX, Bybit), and as
`worst_price` the last quote attaining the maximum price in that order
(a stable ascending sort places the last-encountered maximum at the end). -/
theorem comparePrices_best_first_min_worst_last_max
    (symbol : String) (binance okx bybit : Option ExchangePrice)
    (fundingRates : List FundingRate) (now : ℤ)
    (p : ExchangePrice) (ps : List ExchangePrice)
    (h : getAllPrices binance okx bybit = p :: ps) :
    (comparePrices symbol binance okx bybit fundingRates now).map (fun c => c.best_price) =
      some (specFirstMinBy p ps) ∧
    (comparePrices symbol binance okx bybit fundingRates now).map (fun c => c.worst_price) =
      some (specLastMaxBy p ps) := by
  rw [comparePrices, h, comparePricesAux]
  simp only [Option.map_some']
  constructor
  · rw [List.headD_eq_head?_getD, head?_sortByPrice_cons]
    rfl
  · rw [List.getLastD_eq_getLast?, getLast?_sortByPrice_cons]
    rfl

/-- C3 amended, witnessed at a concrete input: three successful quotes with
prices 105, 105, 100 in source order; the best price is the Bybit quote and
the worst price is the OKX quote (the later of the two tied maxima). -/
theorem comparePrices_best_first_min_worst_last_max_witness :
    (comparePrices "BTCUSDT" (some ⟨.binance, "BTCUSDT", 105, none, 0⟩)
        (some ⟨.okx, "BTCUSDT", 105, none, 0⟩)
        (some ⟨.bybit, "BTCUSDT", 100, none, 0⟩) [] 0).map (fun c => c.best_price) =
      some ⟨.bybit, "BTCUSDT", 100, none, 0⟩ ∧
    (comparePrices "BTCUSDT" (some ⟨.binance, "BTCUSDT", 105, none, 0⟩)
        (some ⟨.okx, "BTCUSDT", 105, none, 0⟩)
        (some ⟨.bybit, "BTCUSDT", 100, none, 0⟩) [] 0).map (fun c => c.worst_price) =
      some ⟨.okx, "BTCUSDT", 105, none, 0⟩ := by
  have h := comparePrices_best_first_min_worst_last_max "BTCUSDT"
    (some ⟨.binance, "BTCUSDT", 105, none, 0⟩)
    (some ⟨.okx, "BTCUSDT", 105, none, 0⟩)
    (some ⟨.bybit, "BTCUSDT", 100, none, 0⟩) [] 0
    ⟨.binance, "BTCUSDT", 105, none, 0⟩
    [⟨.okx, "BTCUSDT", 105, none, 0⟩, ⟨.bybit, "BTCUSDT", 100, none, 0⟩] rfl
  exact ⟨h.1.trans (by decide), h.2.trans (by decide)⟩

/-- Per-source limiter state of `PriceComparisonService` (and, identically,
of `CoinGeckoService`): `lastResets.get(exchange)` and
`requestCounts.get(exchange)` for one fixed source.  Times are epoch
milliseconds. -/
structure RateLimitState where
  lastReset : ℤ
  requestCount : ℕ
deriving DecidableEq, Repr

/-- `checkRateLimit(exchange)` at instant `now`: reset the window when it
has elapsed; otherwise, when the count has reached the limit, sleep for the
remainder of the window (the returned flag records that the caller
suspended) and then reset, the post-sleep `Date.now()` being
`lastReset + requestWindow`. -/
def checkRateLimitStep (requestWindow : ℤ) (rateLimit : ℕ) (now : ℤ)
    (st : RateLimitState) : RateLimitState × Bool :=
  if requestWindow ≤ now - st.lastReset then
    ({ lastReset := now, requestCount := 0 }, false)
  else if rateLimit ≤ st.requestCount then
    ({ lastReset := st.lastReset + requestWindow, requestCount := 0 }, true)
  else
    (st, false)

/-- One acquisition: the request interceptor runs `checkRateLimit` and then
`incrementRequestCount`. -/
def acquireSlot (requestWindow : ℤ) (rateLimit : ℕ) (now : ℤ)
    (st : RateLimitState) : RateLimitState × Bool :=
  let r := checkRateLimitStep requestWindow rateLimit now st
  ({ r.1 with requestCount := r.1.requestCount + 1 }, r.2)

/-- Trace entry for one acquisition: its arrival time, the window-start
(`lastReset`) in force once it completed, and whether it suspended. -/
structure AcquireEvent where
  time : ℤ
  windowStart : ℤ
  suspended : Bool
deriving DecidableEq, Repr

/-- Run a sequence of acquisitions (arrival times) against one source's
limiter state, recording one event per acquisition. -/
def runAcquires (requestWindow : ℤ) (rateLimit : ℕ) :
    RateLimitState → List ℤ → List AcquireEvent
  | _, [] => []
  | st, t :: ts =>
    let r := acquireSlot requestWindow rateLimit t st
    ⟨t, r.1.lastReset, r.2⟩ :: runAcquires requestWindow rateLimit r.1 ts

/-- Number of acquisitions in a trace that completed without suspending and
whose arrival time lies in the half-open sliding window `[a, a + W)`. -/
def nonSuspendedInSlidingWindow (requestWindow a : ℤ) (events : List AcquireEvent) : ℕ :=
  (events.filter (fun e => !e.suspended && decide (a ≤ e.time) && decide (e.time < a + requestWindow))).length

/-- Number of acquisitions in a trace that completed without suspending
during the fixed window that starts at `w` (those whose post-acquisition
`lastReset` equals `w`). -/
def nonSuspendedInFixedWindow (w : ℤ) (events : List AcquireEvent) : ℕ :=
  (events.filter (fun e => !e.suspended && decide (e.windowStart = w))).length

/-- C6 counterexample: with a 60-unit window, a limit of 1 request per
window and the freshly constructed state (lastReset 0, count 0), the two
acquisitions arriving at times 59 and 60 both complete without suspending —
the second one resets the elapsed fixed window — yet both lie inside the
single sliding window `[30, 90)`, exceeding the limit.  The code implements
a fixed-window limiter, not a sliding-window one. -/
theorem checkRateLimit_sliding_window_violated :
    runAcquires 60 1 ⟨0, 0⟩ [59, 60] =
      [⟨59, 0, false⟩, ⟨60, 60, false⟩] ∧
    nonSuspendedInSlidingWindow 60 30 (runAcquires 60 1 ⟨0, 0⟩ [59, 60]) = 2 ∧
    ¬ nonSuspendedInSlidingWindow 60 30 (runAcquires 60 1 ⟨0, 0⟩ [59, 60]) ≤ 1 := by
  refine ⟨by decide, by decide, by decide⟩

theorem acquireSlot_reset {requestWindow : ℤ} {rateLimit : ℕ} {now : ℤ} {st : RateLimitState}
    (h : requestWindow ≤ now - st.lastReset) :
    acquireSlot requestWindow rateLimit now st = (⟨now, 1⟩, false) := by
  simp [acquireSlot, checkRateLimitStep, h]

theorem acquireSlot_suspend {requestWindow : ℤ} {rateLimit : ℕ} {now : ℤ} {st : RateLimitState}
    (h1 : ¬ requestWindow ≤ now - st.lastReset) (h2 : rateLimit ≤ st.requestCount) :
    acquireSlot requestWindow rateLimit now st = (⟨st.lastReset + requestWindow, 1⟩, true) := by
  simp [acquireSlot, checkRateLimitStep, h1, h2]

theorem acquireSlot_normal {requestWindow : ℤ} {rateLimit : ℕ} {now : ℤ} {st : RateLimitState}
    (h1 : ¬ requestWindow ≤ now - st.lastReset) (h2 : ¬ rateLimit ≤ st.requestCount) :
    acquireSlot requestWindow rateLimit now st = (⟨st.lastReset, st.requestCount + 1⟩, false) := by
  simp [acquireSlot, checkRateLimitStep, h1, h2]

theorem runAcquires_cons (requestWindow : ℤ) (rateLimit : ℕ) (t : ℤ) (ts : List ℤ)
    (st : RateLimitState) :
    runAcquires requestWindow rateLimit st (t :: ts) =
      ⟨t, (acquireSlot requestWindow rateLimit t st).1.lastReset,
        (acquireSlot requestWindow rateLimit t st).2⟩ ::
      runAcquires requestWindow rateLimit (acquireSlot requestWindow rateLimit t st).1 ts := rfl

theorem nonSuspendedInFixedWindow_cons_ns (w t ws : ℤ) (evs : List AcquireEvent) :
    nonSuspendedInFixedWindow w (⟨t, ws, false⟩ :: evs) =
      (if ws = w then 1 else 0) + nonSuspendedInFixedWindow w evs := by
  by_cases hw : ws = w
  · simp [nonSuspendedInFixedWindow, List.filter_cons, hw, Nat.add_comm]
  · simp [nonSuspendedInFixedWindow, List.filter_cons, hw]

theorem nonSuspendedInFixedWindow_cons_s (w t ws : ℤ) (evs : List AcquireEvent) :
    nonSuspendedInFixedWindow w (⟨t, ws, true⟩ :: evs) =
      nonSuspendedInFixedWindow w evs := by
  simp [nonSuspendedInFixedWindow, List.filter_cons]

theorem runAcquires_fixed_window_aux (requestWindow : ℤ) (rateLimit : ℕ)
    (hW : 0 < requestWindow) (hlim : 1 ≤ rateLimit) :
    ∀ (ts : List ℤ) (st : RateLimitState), st.requestCount ≤ rateLimit → ∀ w : ℤ,
      nonSuspendedInFixedWindow w (runAcquires requestWindow rateLimit st ts) ≤
        (if w < st.lastReset then 0
         else if w = st.lastReset then rateLimit - st.requestCount
         else rateLimit) := by
  intro ts
  induction ts with
  | nil =>
    intro st hc w
    have : nonSuspendedInFixedWindow w (runAcquires requestWindow rateLimit st []) = 0 := by
      simp [runAcquires, nonSuspendedInFixedWindow]
    rw [this]
    split_ifs <;> omega
  | cons t ts ih =>
    intro st hc w
    rw [runAcquires_cons]
    by_cases h1 : requestWindow ≤ t - st.lastReset
    · rw [acquireSlot_reset h1]
      have hrec := ih ⟨t, 1⟩ (by show 1 ≤ rateLimit; omega) w
      dsimp only at hrec ⊢
      rw [nonSuspendedInFixedWindow_cons_ns]
      have ht : st.lastReset < t := by omega
      split_ifs at hrec ⊢ <;> omega
    · by_cases h2 : rateLimit ≤ st.requestCount
      · rw [acquireSlot_suspend h1 h2]
        have hrec := ih ⟨st.lastReset + requestWindow, 1⟩ (by show 1 ≤ rateLimit; omega) w
        dsimp only at hrec ⊢
        rw [nonSuspendedInFixedWindow_cons_s]
        split_ifs at hrec ⊢ <;> omega
      · rw [acquireSlot_normal h1 h2]
        have hrec := ih ⟨st.lastReset, st.requestCount + 1⟩ (by show st.requestCount + 1 ≤ rateLimit; omega) w
        dsimp only at hrec ⊢
        rw [nonSuspendedInFixedWindow_cons_ns]
        split_ifs at hrec ⊢ <;> omega

/-- C6 amended: the limiter enforces its bound per fixed window, not per
sliding window.  Starting from the constructed state (count 0), for every
sequence of acquisitions and every window-start value `w`, at most
`rateLimit` acquisitions complete without suspending inside the fixed
window beginning at `w` (those whose post-acquisition `lastReset` is `w`);
a sliding window straddling a reset may see up to twice the limit. -/
theorem checkRateLimit_fixed_window_bound (requestWindow : ℤ) (rateLimit : ℕ)
    (st0 : RateLimitState) (ts : List ℤ) (hW : 0 < requestWindow)
    (hlim : 1 ≤ rateLimit) (h0 : st0.requestCount = 0) (w : ℤ) :
    nonSuspendedInFixedWindow w (runAcquires requestWindow rateLimit st0 ts) ≤ rateLimit := by
  have h := runAcquires_fixed_window_aux requestWindow rateLimit hW hlim ts st0 (by omega) w
  split_ifs at h <;> omega

/-- C6 amended, witnessed on the counterexample trace: with window 60,
limit 1 and acquisitions at times 59 and 60, the fixed window starting at
60 contains exactly 1 non-suspending acquisition, within the bound. -/
theorem checkRateLimit_fixed_window_bound_witness :
    0 < (60 : ℤ) ∧ 1 ≤ 1 ∧
    nonSuspendedInFixedWindow 60 (runAcquires 60 1 ⟨0, 0⟩ [59, 60]) ≤ 1 :=
  ⟨by decide, by decide,
    checkRateLimit_fixed_window_bound 60 1 ⟨0, 0⟩ [59, 60] (by decide) (by decide) rfl 60⟩

/-- Outcome of one invocation of a scheduled task's handler: the promise
either resolves or rejects with an error message. -/
inductive HandlerOutcome where
  | ok
  | err (msg : String)
deriving DecidableEq, Repr

/-- The `TaskResult` record returned by `SchedulerService.executeTask`
(timing fields omitted: they carry no control-flow information). -/
structure TaskResult where
  task_id : String
  success : Bool
  error : Option String
deriving DecidableEq, Repr

/-- Per-job scheduler state: the mutable fields of the `ScheduledTask`
record captured by the cron closure (`error_count`, `max_retries`) together
with `cronActive`, which models whether the underlying `cron.ScheduledTask`
is started — set to false by `pauseTask` (called on auto-disable) and back
to true by `resumeTask`. -/
structure SchedulerTaskState where
  id : String
  error_count : ℕ
  max_retries : ℕ
  cronActive : Bool
deriving DecidableEq, Repr

/-- `SchedulerService.executeTask`: skip (with a failure result, no handler
call and no state change) when the running-task count has reached
`max_concurrent_jobs`; otherwise run the handler; on rejection increment
`error_count` and, when it reaches `max_retries`, stop the cron task via
`pauseTask`.  The returned flag records whether the handler was invoked. -/
def executeTask (maxConcurrentJobs runningCount : ℕ) (outcome : HandlerOutcome)
    (st : SchedulerTaskState) : SchedulerTaskState × TaskResult × Bool :=
  if maxConcurrentJobs ≤ runningCount then
    (st, ⟨st.id, false, some "Max concurrent jobs reached"⟩, false)
  else
    match outcome with
    | .ok => (st, ⟨st.id, true, none⟩, true)
    | .err msg =>
      let ec := st.error_count + 1
      if st.max_retries ≤ ec then
        ({ st with error_count := ec, cronActive := false }, ⟨st.id, false, some msg⟩, true)
      else
        ({ st with error_count := ec }, ⟨st.id, false, some msg⟩, true)

/-- A firing of the job's cron schedule: `node-cron` only invokes the
callback (and hence `executeTask`) while the cron task is started, so a
paused job's schedule does not fire it. -/
def fireTask (maxConcurrentJobs runningCount : ℕ) (outcome : HandlerOutcome)
    (st : SchedulerTaskState) : SchedulerTaskState × Option TaskResult :=
  if st.cronActive then
    let r := executeTask maxConcurrentJobs runningCount outcome st
    (r.1, some r.2.1)
  else
    (st, none)

/-- `SchedulerService.pauseTask`: stop the job's cron task. -/
def pauseTask (st : SchedulerTaskState) : SchedulerTaskState :=
  { st with cronActive := false }

/-- `SchedulerService.resumeTask`: start the job's cron task again (no
counter is reset). -/
def resumeTask (st : SchedulerTaskState) : SchedulerTaskState :=
  { st with cronActive := true }

theorem fireTask_paused (maxConcurrentJobs runningCount : ℕ) (outcome : HandlerOutcome)
    (st : SchedulerTaskState) (h : st.cronActive = false) :
    fireTask maxConcurrentJobs runningCount outcome st = (st, none) := by
  simp [fireTask, h]

theorem failing_fire_iterate (maxConcurrentJobs : ℕ) (msg id : String) (mr : ℕ)
    (hc : 0 < maxConcurrentJobs) (hmr : 1 ≤ mr) :
    ∀ k, k ≤ mr →
      (fun s => (fireTask maxConcurrentJobs 0 (.err msg) s).1)^[k] ⟨id, 0, mr, true⟩ =
        ⟨id, k, mr, decide (k < mr)⟩ := by
  intro k
  induction k with
  | zero =>
    intro _
    simp only [Function.iterate_zero, id_eq]
    have : decide (0 < mr) = true := by simpa using hmr
    rw [this]
  | succ n ih =>
    intro hk
    have hn : n ≤ mr := Nat.le_of_succ_le hk
    have hnlt : n < mr := Nat.lt_of_succ_le hk
    rw [Function.iterate_succ_apply', ih hn]
    have hdec : decide (n < mr) = true := by simpa using hnlt
    rw [hdec]
    simp only [fireTask, executeTask]
    have hnc : ¬ maxConcurrentJobs ≤ 0 := by omega
    by_cases hlast : mr ≤ n + 1
    · have h1 : decide (n + 1 < mr) = false := by simpa using hlast
      simp [hlast, h1, hnc]
    · have h1 : decide (n + 1 < mr) = true := by simpa using Nat.lt_of_not_le hlast
      simp [hlast, h1, hnc]

/-- State of a freshly scheduled job (`error_count` 0, cron task started)
after `k` schedule firings whose handler invocations all reject. -/
def failingRun (maxConcurrentJobs : ℕ) (msg id : String) (mr k : ℕ) : SchedulerTaskState :=
  (fun s => (fireTask maxConcurrentJobs 0 (.err msg) s).1)^[k] ⟨id, 0, mr, true⟩

theorem foldl_fire_paused (maxConcurrentJobs runningCount : ℕ) (st : SchedulerTaskState)
    (h : st.cronActive = false) :
    ∀ outcomes : List HandlerOutcome,
      outcomes.foldl (fun s oc => (fireTask maxConcurrentJobs runningCount oc s).1) st = st := by
  intro outcomes
  induction outcomes with
  | nil => rfl
  | cons o os ih =>
    rw [List.foldl_cons, fireTask_paused _ _ _ _ h]
    exact ih

/-- C1: a job scheduled with a fresh `error_count` of 0 whose handler fails
on `max_retries` consecutive firings (ceiling not reached) keeps its cron
task started with `error_count = k` after each of the first
`max_retries − 1` failures, transitions to paused exactly at the
`max_retries`-th failure, is never executed again by any further firing
sequence while paused, a paused job's schedule does not invoke `executeTask`
at all, and an explicit `resumeTask` makes the schedule fire it again. -/
theorem scheduler_autopause_after_max_retries (maxConcurrentJobs : ℕ) (msg id : String)
    (mr : ℕ) (hc : 0 < maxConcurrentJobs) (hmr : 1 ≤ mr) :
    (∀ k, k < mr → (failingRun maxConcurrentJobs msg id mr k).cronActive = true ∧
      (failingRun maxConcurrentJobs msg id mr k).error_count = k) ∧
    (failingRun maxConcurrentJobs msg id mr mr).cronActive = false ∧
    (failingRun maxConcurrentJobs msg id mr mr).error_count = mr ∧
    (∀ outcomes : List HandlerOutcome,
      outcomes.foldl (fun s oc => (fireTask maxConcurrentJobs 0 oc s).1)
        (failingRun maxConcurrentJobs msg id mr mr) =
        failingRun maxConcurrentJobs msg id mr mr) ∧
    (∀ (oc : HandlerOutcome) (st : SchedulerTaskState), st.cronActive = false →
      fireTask maxConcurrentJobs 0 oc st = (st, none)) ∧
    (fireTask maxConcurrentJobs 0 .ok
        (resumeTask (failingRun maxConcurrentJobs msg id mr mr))).2 =
      some ⟨id, true, none⟩ := by
  have hmain := failing_fire_iterate maxConcurrentJobs msg id mr hc hmr
  have hpausedState : failingRun maxConcurrentJobs msg id mr mr =
      ⟨id, mr, mr, false⟩ := by
    rw [failingRun, hmain mr (le_refl mr)]
    simp
  refine ⟨?_, ?_, ?_, ?_, ?_, ?_⟩
  · intro k hk
    rw [failingRun, hmain k (Nat.le_of_lt hk)]
    simp [hk]
  · rw [hpausedState]
  · rw [hpausedState]
  · exact foldl_fire_paused _ _ _ (by rw [hpausedState])
  · exact fun oc st h => fireTask_paused _ _ _ _ h
  · rw [hpausedState]
    simp [resumeTask, fireTask, executeTask, Nat.not_le.mpr hc]

/-- C1 witness: with ceiling 2 and `max_retries` 3, the failing job is still
enabled after 2 failures and is paused with `error_count` 3 after the 3rd. -/
theorem scheduler_autopause_after_max_retries_witness :
    (failingRun 2 "boom" "job" 3 2).cronActive = true ∧
    (failingRun 2 "boom" "job" 3 3).cronActive = false ∧
    (failingRun 2 "boom" "job" 3 3).error_count = 3 :=
  ⟨((scheduler_autopause_after_max_retries 2 "boom" "job" 3 (by decide) (by decide)).1
      2 (by decide)).1,
   (scheduler_autopause_after_max_retries 2 "boom" "job" 3 (by decide) (by decide)).2.1,
   (scheduler_autopause_after_max_retries 2 "boom" "job" 3 (by decide) (by decide)).2.2.1⟩

/-- C9: when the schedule fires while the running-task count has reached
`max_concurrent_jobs`, `executeTask` returns the skip result without
invoking the handler and without touching the job's state — in particular
`error_count` is not incremented and the task is not paused. -/
theorem executeTask_skip_at_ceiling (maxConcurrentJobs runningCount : ℕ)
    (outcome : HandlerOutcome) (st : SchedulerTaskState)
    (h : maxConcurrentJobs ≤ runningCount) :
    executeTask maxConcurrentJobs runningCount outcome st =
      (st, ⟨st.id, false, some "Max concurrent jobs reached"⟩, false) := by
  simp [executeTask, h]

/-- C9 witness: a failing firing at a full ceiling (2 of 2 running) leaves
the job untouched and uninvoked. -/
theorem executeTask_skip_at_ceiling_witness :
    executeTask 2 2 (.err "boom") ⟨"job", 1, 3, true⟩ =
      (⟨"job", 1, 3, true⟩, ⟨"job", false, some "Max concurrent jobs reached"⟩, false) :=
  executeTask_skip_at_ceiling 2 2 (.err "boom") ⟨"job", 1, 3, true⟩ (by decide)

/-- A row of the `subscriptions` table as used by
`broadcastToSubscribers` (presentation-only columns omitted). -/
structure UserSubscription where
  user_id : ℤ
  chat_id : ℤ
  subscription_type : String
  is_active : Bool
deriving DecidableEq, Repr

/-- The argument of `DatabaseService.addRecord` (the `id` and `timestamp`
columns are generated inside the store). -/
structure PushRecordInput where
  user_id : ℤ
  chat_id : ℤ
  subscription_type : String
  content : String
  success : Bool
  error_message : Option String
deriving DecidableEq, Repr

/-- External outcomes seen by one broadcast: the result of
`bot.sendMessage` per subscriber, and the result of `db.addRecord` per
(subscriber, success-flag) pair — each either resolves or rejects with an
error message. -/
structure BroadcastEnv where
  sendResult : UserSubscription → Except String Unit
  addRecordResult : UserSubscription → Bool → Except String Unit

/-- The push-history row recorded for one subscriber. -/
def mkPushRecord (sub : UserSubscription) (subscriptionType message : String)
    (success : Bool) (errorMessage : Option String) : PushRecordInput :=
  ⟨sub.user_id, sub.chat_id, subscriptionType, message, success, errorMessage⟩

/-- The subscriber loop of `broadcastToSubscribers`.  Per subscriber: send;
on success write a success record (if that write rejects, the inner catch
writes a failure record carrying the store error); on send failure the
inner catch writes a failure record carrying the send error.  A rejection
of the catch-block write escapes the inner try/catch, aborting the loop:
the first component collects the records actually written, the second is
the error propagating to the outer catch, if any. -/
def broadcastLoop (env : BroadcastEnv) (subscriptionType message : String) :
    List UserSubscription → List PushRecordInput × Option String
  | [] => ([], none)
  | sub :: rest =>
    match env.sendResult sub with
    | .ok _ =>
      match env.addRecordResult sub true with
      | .ok _ =>
        let r := broadcastLoop env subscriptionType message rest
        (mkPushRecord sub subscriptionType message true none :: r.1, r.2)
      | .error dbErr =>
        match env.addRecordResult sub false with
        | .ok _ =>
          let r := broadcastLoop env subscriptionType message rest
          (mkPushRecord sub subscriptionType message false (some dbErr) :: r.1, r.2)
        | .error dbErr2 => ([], some dbErr2)
    | .error sendErr =>
      match env.addRecordResult sub false with
      | .ok _ =>
        let r := broadcastLoop env subscriptionType message rest
        (mkPushRecord sub subscriptionType message false (some sendErr) :: r.1, r.2)
      | .error dbErr2 => ([], some dbErr2)

/-- `TelegramBotService.broadcastToSubscribers`: load the active
subscriptions of the category (the settled result of
`getActiveSubscriptions` is passed in), run the subscriber loop, and let
the outer catch swallow both a store failure while loading and any error
escaping the loop — the promise always resolves.  The result is the list
of push records written and the rejection reason of the returned promise
(always `none`). -/
def broadcastToSubscribers (env : BroadcastEnv) (subscriptionType message : String)
    (subsResult : Except String (List UserSubscription)) :
    List PushRecordInput × Option String :=
  match subsResult with
  | .error _ => ([], none)
  | .ok subs => ((broadcastLoop env subscriptionType message subs).1, none)

/-- The handler outcome a scheduled job observes from an awaited call:
`ok` when the promise resolved, `err` when it rejected. -/
def jobOutcomeOf (r : List PushRecordInput × Option String) : HandlerOutcome :=
  match r.2 with
  | none => .ok
  | some e => .err e

/-- C4: when the store accepts every push-history write, the broadcast
writes exactly one record per subscriber, in subscriber order — a success
record on send success and a failure record carrying the error text on send
failure — and a failed send never prevents the later subscribers from being
sent to and recorded. -/
theorem broadcast_one_record_per_subscriber (env : BroadcastEnv)
    (subscriptionType message : String) (subs : List UserSubscription)
    (hadd : ∀ sub b, env.addRecordResult sub b = .ok ()) :
    broadcastToSubscribers env subscriptionType message (.ok subs) =
      (subs.map (fun sub =>
        match env.sendResult sub with
        | .ok _ => mkPushRecord sub subscriptionType message true none
        | .error e => mkPushRecord sub subscriptionType message false (some e)), none) := by
  rw [broadcastToSubscribers]
  have hloop : ∀ l : List UserSubscription,
      broadcastLoop env subscriptionType message l =
        (l.map (fun sub =>
          match env.sendResult sub with
          | .ok _ => mkPushRecord sub subscriptionType message true none
          | .error e => mkPushRecord sub subscriptionType message false (some e)), none) := by
    intro l
    induction l with
    | nil => rfl
    | cons sub rest ih =>
      rw [broadcastLoop]
      cases hs : env.sendResult sub with
      | ok u =>
        rw [hadd sub true, ih]
        simp [List.map_cons, hs]
      | error e =>
        rw [hadd sub false, ih]
        simp [List.map_cons, hs]
  rw [hloop]

/-- C4 witness: 3 subscribers, the 2nd send failing with "network error":
exactly 3 records, in order success / failure-with-message / success. -/
theorem broadcast_one_record_per_subscriber_witness :
    broadcastToSubscribers
      ⟨fun sub => if sub.user_id = 2 then .error "network error" else .ok (),
       fun _ _ => .ok ()⟩ "crypto_prices" "msg"
      (.ok [⟨1, 11, "crypto_prices", true⟩, ⟨2, 12, "crypto_prices", true⟩,
            ⟨3, 13, "crypto_prices", true⟩]) =
      ([⟨1, 11, "crypto_prices", "msg", true, none⟩,
        ⟨2, 12, "crypto_prices", "msg", false, some "network error"⟩,
        ⟨3, 13, "crypto_prices", "msg", true, none⟩], none) := by
  have h := broadcast_one_record_per_subscriber
    ⟨fun sub => if sub.user_id = 2 then .error "network error" else .ok (),
     fun _ _ => .ok ()⟩ "crypto_prices" "msg"
    [⟨1, 11, "crypto_prices", true⟩, ⟨2, 12, "crypto_prices", true⟩,
     ⟨3, 13, "crypto_prices", true⟩]
    (fun _ _ => rfl)
  exact h.trans (by decide)

/-- C10: `broadcastToSubscribers` never rejects — also when loading the
subscriptions fails with a store error or a push-history write rejects
mid-loop — so a scheduled job running a broadcast as its handler observes a
successful execution: `executeTask` returns success and leaves the job
state, in particular `error_count`, unchanged. -/
theorem broadcast_never_rejects_job_succeeds (env : BroadcastEnv)
    (subscriptionType message : String)
    (subsResult : Except String (List UserSubscription))
    (maxConcurrentJobs runningCount : ℕ) (st : SchedulerTaskState)
    (h : runningCount < maxConcurrentJobs) :
    (broadcastToSubscribers env subscriptionType message subsResult).2 = none ∧
    executeTask maxConcurrentJobs runningCount
        (jobOutcomeOf (broadcastToSubscribers env subscriptionType message subsResult)) st =
      (st, ⟨st.id, true, none⟩, true) := by
  have hres : (broadcastToSubscribers env subscriptionType message subsResult).2 = none := by
    cases subsResult <;> rfl
  refine ⟨hres, ?_⟩
  rw [jobOutcomeOf, hres]
  simp [executeTask, Nat.not_le.mpr h]

/-- C10 witness: a broadcast whose subscription load fails and whose every
send and record write would fail still resolves, and the enclosing job
records a success without incrementing `error_count`. -/
theorem broadcast_never_rejects_job_succeeds_witness :
    (broadcastToSubscribers
        ⟨fun _ => .error "send down", fun _ _ => .error "db down"⟩
        "crypto_prices" "msg" (.error "db read failed")).2 = none ∧
    executeTask 2 0
        (jobOutcomeOf (broadcastToSubscribers
          ⟨fun _ => .error "send down", fun _ _ => .error "db down"⟩
          "crypto_prices" "msg" (.error "db read failed"))) ⟨"job", 0, 3, true⟩ =
      (⟨"job", 0, 3, true⟩, ⟨"job", true, none⟩, true) :=
  broadcast_never_rejects_job_succeeds
    ⟨fun _ => .error "send down", fun _ _ => .error "db down"⟩
    "crypto_prices" "msg" (.error "db read failed") 2 0 ⟨"job", 0, 3, true⟩ (by decide)

/-- The `condition` column of `price_alerts` (`CHECK (condition IN
('above', 'below'))`). -/
inductive AlertCondition where
  | above
  | below
deriving DecidableEq, Repr

/-- A row of the `price_alerts` table. -/
structure PriceAlert where
  id : String
  user_id : ℤ
  chat_id : ℤ
  symbol : String
  target_price : ℚ
  condition : AlertCondition
  is_active : Bool
  triggered : Bool
  triggered_at : Option String
deriving DecidableEq, Repr

/-- `DatabaseService.getActiveAlerts`: `SELECT * FROM price_alerts WHERE
is_active = 1 AND triggered = 0`. -/
def getActiveAlerts (db : List PriceAlert) : List PriceAlert :=
  db.filter (fun a => a.is_active && !a.triggered)

/-- `DatabaseService.triggerAlert`: `UPDATE price_alerts SET triggered = 1,
triggered_at = ? WHERE id = ?`. -/
def triggerAlert (nowIso : String) (alertId : String) (db : List PriceAlert) :
    List PriceAlert :=
  db.map (fun a =>
    if a.id = alertId then { a with triggered := true, triggered_at := some nowIso } else a)

/-- Insert one alert into the symbol-keyed bucket list, preserving the
first-occurrence key order of the JS `Map` built in `checkPriceAlerts`. -/
def insertGrouped (a : PriceAlert) :
    List (String × List PriceAlert) → List (String × List PriceAlert)
  | [] => [(a.symbol, [a])]
  | (s, g) :: rest =>
    if s = a.symbol then (s, g ++ [a]) :: rest else (s, g) :: insertGrouped a rest

/-- The `alertsBySymbol` map of `checkPriceAlerts`, as an insertion-ordered
association list. -/
def groupBySymbol (alerts : List PriceAlert) : List (String × List PriceAlert) :=
  alerts.foldl (fun acc a => insertGrouped a acc) []

/-- The per-alert condition test of `checkPriceAlerts`:
`above ⇒ currentPrice ≥ target_price`, `below ⇒ currentPrice ≤
target_price`. -/
def alertMatches (currentPrice : ℚ) (a : PriceAlert) : Bool :=
  (decide (a.condition = .above) && decide (a.target_price ≤ currentPrice)) ||
  (decide (a.condition = .below) && decide (currentPrice ≤ a.target_price))

/-- The inner alert loop of `checkPriceAlerts` over one symbol group: on a
match, send the alert message and — only when the send succeeded — mark the
alert triggered in the store; a failed send is caught and the alert is left
untouched. -/
def processSymbolGroup (sendOk : PriceAlert → Bool) (nowIso : String) (currentPrice : ℚ) :
    List PriceAlert → List PriceAlert → List PriceAlert
  | [], db => db
  | a :: as, db =>
    processSymbolGroup sendOk nowIso currentPrice as
      (if alertMatches currentPrice a then
        if sendOk a then triggerAlert nowIso a.id db else db
      else db)

/-- The outer symbol-group loop of `checkPriceAlerts`.  `priceOf` models
`getSimplePrices([symbol.toLowerCase()])[symbol.toLowerCase()]?.usd` — the
lowercased lookup against the price provider; a missing (or falsy, i.e.
zero) current price, like a fetch error, skips just that group. -/
def processGroups (priceOf : String → Option ℚ) (sendOk : PriceAlert → Bool)
    (nowIso : String) :
    List (String × List PriceAlert) → List PriceAlert → List PriceAlert
  | [], db => db
  | sg :: rest, db =>
    processGroups priceOf sendOk nowIso rest
      (match priceOf sg.1 with
       | none => db
       | some p => if p = 0 then db else processSymbolGroup sendOk nowIso p sg.2 db)

/-- `SchedulerService.checkPriceAlerts`: load the active, untriggered
alerts, group them by symbol, and process each group against the current
price. -/
def checkPriceAlerts (priceOf : String → Option ℚ) (sendOk : PriceAlert → Bool)
    (nowIso : String) (db : List PriceAlert) : List PriceAlert :=
  processGroups priceOf sendOk nowIso (groupBySymbol (getActiveAlerts db)) db

theorem mem_triggerAlert_of_ne {x : PriceAlert} {db : List PriceAlert} (nowIso tid : String)
    (hx : x ∈ db) (hne : x.id ≠ tid) : x ∈ triggerAlert nowIso tid db := by
  have hfx : (if x.id = tid then
      { x with triggered := true, triggered_at := some nowIso } else x) = x := if_neg hne
  have hm := List.mem_map_of_mem
    (fun a => if a.id = tid then
      { a with triggered := true, triggered_at := some nowIso } else a) hx
  dsimp only at hm
  rw [hfx] at hm
  exact hm

theorem mem_processSymbolGroup_of_ne (sendOk : PriceAlert → Bool) (nowIso : String) (p : ℚ) :
    ∀ (g db : List PriceAlert) (x : PriceAlert), x ∈ db → (∀ a ∈ g, x.id ≠ a.id) →
      x ∈ processSymbolGroup sendOk nowIso p g db := by
  intro g
  induction g with
  | nil => intro db x hx _; exact hx
  | cons a as ih =>
    intro db x hx hne
    rw [processSymbolGroup]
    apply ih
    · split_ifs
      · exact mem_triggerAlert_of_ne nowIso a.id hx (hne a (List.mem_cons_self a as))
      · exact hx
      · exact hx
    · intro b hb
      exact hne b (List.mem_cons_of_mem a hb)

theorem mem_processGroups_of_ne (priceOf : String → Option ℚ) (sendOk : PriceAlert → Bool)
    (nowIso : String) :
    ∀ (gs : List (String × List PriceAlert)) (db : List PriceAlert) (x : PriceAlert),
      x ∈ db → (∀ sg ∈ gs, ∀ a ∈ sg.2, x.id ≠ a.id) →
      x ∈ processGroups priceOf sendOk nowIso gs db := by
  intro gs
  induction gs with
  | nil => intro db x hx _; exact hx
  | cons sg rest ih =>
    intro db x hx hne
    rw [processGroups]
    apply ih
    · cases hp : priceOf sg.1 with
      | none => exact hx
      | some p =>
        dsimp only
        split_ifs
        · exact hx
        · exact mem_processSymbolGroup_of_ne sendOk nowIso p sg.2 db x hx
            (fun a ha => hne sg (List.mem_cons_self sg rest) a ha)
    · intro tg htg a ha
      exact hne tg (List.mem_cons_of_mem sg htg) a ha

theorem insertGrouped_mem_prop (C : PriceAlert → Prop) (a : PriceAlert) :
    ∀ (acc : List (String × List PriceAlert)),
      (∀ tg ∈ acc, ∀ x ∈ tg.2, C x) → C a →
      ∀ sg ∈ insertGrouped a acc, ∀ x ∈ sg.2, C x := by
  intro acc
  induction acc with
  | nil =>
    intro _ hCa sg hsg x hx
    simp only [insertGrouped, List.mem_singleton] at hsg
    subst hsg
    simp only [List.mem_singleton] at hx
    subst hx
    exact hCa
  | cons tg0 rest ih =>
    intro hacc hCa sg hsg x hx
    obtain ⟨s, g⟩ := tg0
    rw [insertGrouped] at hsg
    by_cases hse : s = a.symbol
    · rw [if_pos hse] at hsg
      rcases List.mem_cons.mp hsg with h1 | h2
      · subst h1
        dsimp only at hx
        rcases List.mem_append.mp hx with hg | hsing
        · exact hacc (s, g) (List.mem_cons_self _ _) x hg
        · simp only [List.mem_singleton] at hsing
          subst hsing
          exact hCa
      · exact hacc sg (List.mem_cons_of_mem _ h2) x hx
    · rw [if_neg hse] at hsg
      rcases List.mem_cons.mp hsg with h1 | h2
      · subst h1
        exact hacc (s, g) (List.mem_cons_self _ _) x hx
      · exact ih (fun tg htg => hacc tg (List.mem_cons_of_mem _ htg)) hCa sg h2 x hx

theorem groupBySymbol_mem_prop (C : PriceAlert → Prop) :
    ∀ (l : List PriceAlert) (acc : List (String × List PriceAlert)),
      (∀ x ∈ l, C x) → (∀ tg ∈ acc, ∀ x ∈ tg.2, C x) →
      ∀ sg ∈ l.foldl (fun acc a => insertGrouped a acc) acc, ∀ x ∈ sg.2, C x := by
  intro l
  induction l with
  | nil => intro acc _ hacc sg hsg x hx; exact hacc sg hsg x hx
  | cons a as ih =>
    intro acc hl hacc sg hsg x hx
    rw [List.foldl_cons] at hsg
    exact ih (insertGrouped a acc) (fun y hy => hl y (List.mem_cons_of_mem a hy))
      (insertGrouped_mem_prop C a acc hacc (hl a (List.mem_cons_self a as))) sg hsg x hx

/-- C5: an active untriggered alert with condition `below` and target 100
is triggered by the evaluator when the current price is 99 (marked
triggered with its trigger time); and once an alert's `triggered` flag is
true it is excluded from `getActiveAlerts` — never loaded for evaluation —
and survives any evaluation cycle completely untouched (never re-triggered)
whatever later prices and send outcomes are, given the primary-key
uniqueness of alert ids. -/
theorem alert_below_triggers_and_is_one_shot :
    (checkPriceAlerts (fun _ => some 99) (fun _ => true) "T"
        [⟨"a1", 1, 11, "BTCUSDT", 100, .below, true, false, none⟩] =
      [⟨"a1", 1, 11, "BTCUSDT", 100, .below, true, true, some "T"⟩]) ∧
    (∀ (priceOf : String → Option ℚ) (sendOk : PriceAlert → Bool) (nowIso : String)
        (db : List PriceAlert) (x : PriceAlert),
      x ∈ db → x.triggered = true → (db.map (fun a => a.id)).Nodup →
      x ∉ getActiveAlerts db ∧ x ∈ checkPriceAlerts priceOf sendOk nowIso db) := by
  constructor
  · decide
  · intro priceOf sendOk nowIso db x hx ht hnd
    constructor
    · intro hmem
      rw [getActiveAlerts, List.mem_filter, ht] at hmem
      simp at hmem
    · rw [checkPriceAlerts]
      apply mem_processGroups_of_ne
      · exact hx
      · intro sg hsg a ha
        have haA : a ∈ getActiveAlerts db :=
          groupBySymbol_mem_prop (fun y => y ∈ getActiveAlerts db)
            (getActiveAlerts db) [] (fun y hy => hy)
            (by intro tg htg y hy; simp at htg) sg hsg a ha
        have haDb : a ∈ db := (List.mem_filter.mp haA).1
        have haT : a.triggered = false := by
          have hcond := (List.mem_filter.mp haA).2
          simp only [Bool.and_eq_true, Bool.not_eq_true'] at hcond
          exact hcond.2
        intro hid
        have hxa : x = a := List.inj_on_of_nodup_map hnd hx haDb hid
        rw [hxa, haT] at ht
        exact Bool.noConfusion ht

/-- C5 witness: a database holding one already-triggered alert (target 100)
and one fresh alert; even with the current price at 80 — which satisfies the
triggered alert's `below` condition — the triggered alert is not loaded for
evaluation and comes out of the cycle unchanged. -/
theorem alert_below_triggers_and_is_one_shot_witness :
    (⟨"a0", 1, 11, "BTCUSDT", 100, .below, true, true, some "S"⟩ : PriceAlert) ∉
      getActiveAlerts
        [⟨"a0", 1, 11, "BTCUSDT", 100, .below, true, true, some "S"⟩,
         ⟨"a1", 1, 11, "BTCUSDT", 90, .below, true, false, none⟩] ∧
    (⟨"a0", 1, 11, "BTCUSDT", 100, .below, true, true, some "S"⟩ : PriceAlert) ∈
      checkPriceAlerts (fun _ => some 80) (fun _ => true) "T"
        [⟨"a0", 1, 11, "BTCUSDT", 100, .below, true, true, some "S"⟩,
         ⟨"a1", 1, 11, "BTCUSDT", 90, .below, true, false, none⟩] :=
  alert_below_triggers_and_is_one_shot.2 (fun _ => some 80) (fun _ => true) "T"
    [⟨"a0", 1, 11, "BTCUSDT", 100, .below, true, true, some "S"⟩,
     ⟨"a1", 1, 11, "BTCUSDT", 90, .below, true, false, none⟩]
    ⟨"a0", 1, 11, "BTCUSDT", 100, .below, true, true, some "S"⟩
    (by decide) rfl (by decide)

/-- A row of the `push_history` table.  The `timestamp` column stores an
ISO-8601 string; since those compare lexicographically exactly as the
instants they denote, it is modelled as the epoch-millisecond integer. -/
structure PushHistory where
  id : String
  user_id : ℤ
  chat_id : ℤ
  subscription_type : String
  content : String
  success : Bool
  error_message : Option String
  timestamp : ℤ
deriving DecidableEq, Repr

/-- `DatabaseService.cleanOldRecords(daysToKeep)`: compute the cutoff
`now − daysToKeep` days and run `DELETE FROM push_history WHERE
timestamp < ?`; the kept rows are those not matching, and the returned
`result.changes` is the number of deleted rows. -/
def cleanOldRecords (now : ℤ) (daysToKeep : ℕ) (hist : List PushHistory) :
    List PushHistory × ℕ :=
  let cutoff := now - (daysToKeep : ℤ) * 24 * 60 * 60 * 1000
  (hist.filter (fun r => !decide (r.timestamp < cutoff)),
   (hist.filter (fun r => decide (r.timestamp < cutoff))).length)

theorem filter_partition_length {α : Type} (p : α → Bool) (l : List α) :
    (l.filter p).length + (l.filter (fun a => !(p a))).length = l.length := by
  induction l with
  | nil => rfl
  | cons a as ih =>
    rw [List.filter_cons, List.filter_cons]
    cases hp : p a <;> simp [hp] <;> omega

/-- C8: `cleanOldRecords(30)` keeps exactly the records whose timestamp is
at or after the instant 30 days before `now`, unchanged and in their
original order, deletes exactly those strictly older, and returns the exact
number deleted (deleted + kept = total). -/
theorem cleanOldRecords_30_exact (now : ℤ) (hist : List PushHistory) :
    (∀ r ∈ (cleanOldRecords now 30 hist).1,
      now - 30 * 24 * 60 * 60 * 1000 ≤ r.timestamp) ∧
    (∀ r ∈ hist, now - 30 * 24 * 60 * 60 * 1000 ≤ r.timestamp →
      r ∈ (cleanOldRecords now 30 hist).1) ∧
    (∀ r ∈ hist, r.timestamp < now - 30 * 24 * 60 * 60 * 1000 →
      r ∉ (cleanOldRecords now 30 hist).1) ∧
    (cleanOldRecords now 30 hist).1.Sublist hist ∧
    (cleanOldRecords now 30 hist).2 + (cleanOldRecords now 30 hist).1.length =
      hist.length := by
  refine ⟨?_, ?_, ?_, ?_, ?_⟩
  · intro r hr
    rw [cleanOldRecords] at hr
    have hc := (List.mem_filter.mp hr).2
    simp only [Bool.not_eq_true', decide_eq_false_iff_not] at hc
    push_cast at hc ⊢
    omega
  · intro r hr hts
    rw [cleanOldRecords]
    refine List.mem_filter.mpr ⟨hr, ?_⟩
    simp only [Bool.not_eq_true', decide_eq_false_iff_not]
    push_cast
    omega
  · intro r _ hts hmem
    rw [cleanOldRecords] at hmem
    have hc := (List.mem_filter.mp hmem).2
    simp only [Bool.not_eq_true', decide_eq_false_iff_not] at hc
    push_cast at hc
    omega
  · exact List.filter_sublist hist
  · exact filter_partition_length _ hist

/-- C8 witness: with the cutoff at 30 days before `now = 2592000050`, the
record stamped 0 is deleted and the record stamped 100 is kept; one record
is reported deleted out of two. -/
theorem cleanOldRecords_30_exact_witness :
    (⟨"r2", 1, 11, "crypto_prices", "msg", true, none, 100⟩ : PushHistory) ∈
      (cleanOldRecords 2592000050 30
        [⟨"r1", 1, 11, "crypto_prices", "msg", true, none, 0⟩,
         ⟨"r2", 1, 11, "crypto_prices", "msg", true, none, 100⟩]).1 ∧
    (⟨"r1", 1, 11, "crypto_prices", "msg", true, none, 0⟩ : PushHistory) ∉
      (cleanOldRecords 2592000050 30
        [⟨"r1", 1, 11, "crypto_prices", "msg", true, none, 0⟩,
         ⟨"r2", 1, 11, "crypto_prices", "msg", true, none, 100⟩]).1 ∧
    (cleanOldRecords 2592000050 30
        [⟨"r1", 1, 11, "crypto_prices", "msg", true, none, 0⟩,
         ⟨"r2", 1, 11, "crypto_prices", "msg", true, none, 100⟩]).2 +
      (cleanOldRecords 2592000050 30
        [⟨"r1", 1, 11, "crypto_prices", "msg", true, none, 0⟩,
         ⟨"r2", 1, 11, "crypto_prices", "msg", true, none, 100⟩]).1.length = 2 :=
  ⟨(cleanOldRecords_30_exact 2592000050
      [⟨"r1", 1, 11, "crypto_prices", "msg", true, none, 0⟩,
       ⟨"r2", 1, 11, "crypto_prices", "msg", true, none, 100⟩]).2.1
      ⟨"r2", 1, 11, "crypto_prices", "msg", true, none, 100⟩ (by decide) (by decide),
   (cleanOldRecords_30_exact 2592000050
      [⟨"r1", 1, 11, "crypto_prices", "msg", true, none, 0⟩,
       ⟨"r2", 1, 11, "crypto_prices", "msg", true, none, 100⟩]).2.2.1
      ⟨"r1", 1, 11, "crypto_prices", "msg", true, none, 0⟩ (by decide) (by decide),
   (cleanOldRecords_30_exact 2592000050
      [⟨"r1", 1, 11, "crypto_prices", "msg", true, none, 0⟩,
       ⟨"r2", 1, 11, "crypto_prices", "msg", true, none, 100⟩]).2.2.2.2⟩
